import Mathlib

/-!
# Verification of the site's two text parsers

A shallow embedding of `teaching.js` (`TeachingParser`) and
`publications.js` (`BibtexParser`).  JavaScript strings are modelled as
`List Char`; records (plain JS objects used as string-to-string maps) are
modelled as association lists built with an update-or-append `setField`,
which reproduces JS property-assignment semantics (later assignment to an
existing key overwrites it).  `Array.prototype.sort` with a consistent
comparator is specified (ES2019) to produce the unique stable ordering
consistent with the comparator; it is modelled by a stable insertion sort.
The DOM-rendering methods are presentation glue and are not embedded.
-/

namespace Site

/-- The ASCII white-space characters matched by JS `\s`, `String.trim` and
`parseInt`'s leading-whitespace skipping (the Unicode space characters are
irrelevant to the ASCII data files this program parses). -/
def isJSWhitespace (c : Char) : Bool :=
  c = ' ' ∨ c = '\t' ∨ c = '\n' ∨ c = '\x0d' ∨ c = '\x0b' ∨ c = '\x0c'

/-- JS `\w`: ASCII letters, digits and underscore. -/
def isWordChar (c : Char) : Bool :=
  ('a' ≤ c ∧ c ≤ 'z') ∨ ('A' ≤ c ∧ c ≤ 'Z') ∨ ('0' ≤ c ∧ c ≤ '9') ∨ c = '_'

/-- ASCII decimal digit. -/
def isDigitChar (c : Char) : Bool := '0' ≤ c ∧ c ≤ '9'

/-- `String.prototype.trim`: drop whitespace from both ends. -/
def jsTrim (s : List Char) : List Char :=
  ((s.dropWhile isJSWhitespace).reverse.dropWhile isJSWhitespace).reverse

/-- `String.prototype.split` with a single-character separator: split into
the (possibly empty) fields between occurrences of `sep`. -/
def splitOnChar (sep : Char) : List Char → List (List Char)
  | [] => [[]]
  | c :: cs =>
    match splitOnChar sep cs with
    | [] => [[]]
    | f :: rest => if c = sep then [] :: f :: rest else (c :: f) :: rest

/-- Decimal value of a run of digits (the digits of a JS `parseInt` match). -/
def decDigitsVal : List Char → Nat
  | [] => 0
  | ds => ds.foldl (fun acc d => 10 * acc + (d.toNat - '0'.toNat)) 0

/-- `parseInt(s) || 0`: skip leading whitespace, read an optional sign and a
maximal run of decimal digits; no digits gives `NaN`, and both `NaN` and
(signed) zero are falsy, so the `|| 0` collapses those cases to `0` —
which is exactly what mapping the empty digit run to `0` yields. -/
def parseIntOr0 (s : List Char) : Int :=
  let t := s.dropWhile isJSWhitespace
  match t with
  | '-' :: rest => -(decDigitsVal (rest.takeWhile isDigitChar) : Int)
  | '+' :: rest => (decDigitsVal (rest.takeWhile isDigitChar) : Int)
  | _ => (decDigitsVal (t.takeWhile isDigitChar) : Int)

/-- A parsed record: a JS object used as a string-to-string map. -/
abbrev Record := List (List Char × List Char)

/-- JS property assignment `r[k] = v`: overwrite an existing key in place,
otherwise append the new binding. -/
def setField (r : Record) (k v : List Char) : Record :=
  match r with
  | [] => [(k, v)]
  | (k', v') :: rest => if k' = k then (k, v) :: rest else (k', v') :: setField rest k v

/-- JS property read `r[k]`: `none` models `undefined`. -/
def getField (r : Record) (k : List Char) : Option (List Char) :=
  match r with
  | [] => none
  | (k', v) :: rest => if k' = k then some v else getField rest k

/-- The sort key `parseInt(rec.year) || 0`; a missing `year` field reads as
`undefined`, and `parseInt(undefined)` is `NaN`, which `|| 0` turns into 0. -/
def recYear (r : Record) : Int :=
  match getField r ("year".data) with
  | some v => parseIntOr0 v
  | none => 0

/-- Insert `x` into a descending-by-year list, after every element with a
strictly larger year and before every element with a year `≤` its own, so
that an element inserted later (originally earlier) precedes equal years. -/
def insertYearDesc (x : Record) : List Record → List Record
  | [] => [x]
  | y :: ys => if recYear x < recYear y then y :: insertYearDesc x ys else x :: y :: ys

/-- `arr.sort((a, b) => (parseInt(b.year) || 0) - (parseInt(a.year) || 0))`:
the unique stable descending-by-year order, realised as a stable insertion
sort (`foldr` keeps originally-earlier elements ahead of equal years). -/
def sortByYearDesc (l : List Record) : List Record :=
  l.foldr insertYearDesc []

/-! ## TeachingParser (`teaching.js`) -/

/-- `TeachingParser.parseCSVLine`, the quote-aware field scanner: a double
quote toggles `inQuotes` (and is not emitted), a comma outside quotes ends
the current field, anything else accumulates; the last field is pushed at
end of line. -/
def csvScan (values : List (List Char)) (current : List Char) (inQuotes : Bool) :
    List Char → List (List Char)
  | [] => values ++ [current]
  | c :: cs =>
    if c = '"' then csvScan values current (!inQuotes) cs
    else if c = ',' ∧ inQuotes = false then csvScan (values ++ [current]) [] inQuotes cs
    else csvScan values (current ++ [c]) inQuotes cs

/-- `TeachingParser.parseCSVLine(line)`. -/
def parseCSVLine (line : List Char) : List (List Char) :=
  csvScan [] [] false line

/-- `content.trim().split('\n')`. -/
def csvLines (content : List Char) : List (List Char) :=
  splitOnChar '\n' (jsTrim content)

/-- `lines[0].split(',').map(h => h.trim())`: the header names. -/
def csvHeaders (content : List Char) : List (List Char) :=
  (splitOnChar ',' (csvLines content).headI).map jsTrim

/-- The data lines the parse loop runs over: `lines[1..]`, or nothing at all
when the guard `lines.length < 2` aborts the parse. -/
def csvDataLines (content : List Char) : List (List Char) :=
  if (csvLines content).length < 2 then [] else (csvLines content).drop 1

/-- `headers.forEach((header, index) => activity[header] = values[index] ?
values[index].trim() : '')`: walk the headers, consuming one parsed value
per header; a missing value (`undefined`, falsy) stores `''`, and so does an
empty string, whose trim is itself `''`. -/
def buildActivity (acc : Record) : List (List Char) → List (List Char) → Record
  | [], _ => acc
  | h :: hs, [] => buildActivity (setField acc h []) hs []
  | h :: hs, v :: vs => buildActivity (setField acc h (jsTrim v)) hs vs

/-- The body of `TeachingParser.parseCSV`'s data-line loop: each line is
scanned; lines with at least as many fields as headers contribute a record,
shorter lines are skipped. -/
def csvRecords (content : List Char) : List Record :=
  (csvDataLines content).foldl
    (fun acc l =>
      let vs := parseCSVLine l
      if (csvHeaders content).length ≤ vs.length then acc ++ [buildActivity [] (csvHeaders content) vs]
      else acc)
    []

/-- `TeachingParser.parseCSV(content)`: parse the data lines, then sort by
year, newest first. -/
def parseCSV (content : List Char) : List Record :=
  sortByYearDesc (csvRecords content)

/-! ## BibtexParser (`publications.js`) -/

/-- Match one literal character and return the remainder. -/
def expectChar (c : Char) : List Char → Option (List Char)
  | x :: xs => if x = c then some xs else none
  | [] => none

/-- The match of `/^(\w+)\{([^,]+),?/` against a first line, as performed by
a backtracking regex engine: the greedy `\w+` takes the maximal word-char
prefix (shortening it can never help, since the following char would then
be a word char, not `{`); `[^,]+` greedily takes every non-comma character
— including any closing brace — and the optional `,?` never forces
backtracking.  Returns the two capture groups (type, key). -/
def typeKeyMatch (l : List Char) : Option (List Char × List Char) :=
  let ty := l.takeWhile isWordChar
  if ty = [] then none
  else
    match expectChar '\x7b' (l.drop ty.length) with
    | none => none
    | some rest =>
      let key := rest.takeWhile (fun c => !decide (c = ','))
      if key = [] then none else some (ty, key)

/-- One attempted match of the field regex
`/(\w+)\s*=\s*\{([^}]*(?:\{[^}]*\}[^}]*)*)\}(?:,\s*)?/gs` at the start of
`l`, with exact backtracking-engine semantics: the greedy `\w+`, `\s*` and
`[^}]*` runs are maximal (no continuation can rescue a shorter choice: a
word char is never `=` or whitespace, a whitespace char is never `=` or
`{`); in particular the greedy `[^}]*` — which also consumes `{` — runs to
the first `}`, the nested-brace alternative `(?:\{[^}]*\}[^}]*)*` then
matches zero times, and `\}` closes the match at that first `}`.  When no
`}` follows at all, every backtracking path still demands a `}` and the
match fails.  The trailing `(?:,\s*)?` consumes an optional comma and
whitespace (affecting only where the next global match resumes).  Returns
(field, value, remainder-after-match). -/
def matchFieldAt (l : List Char) : Option (List Char × List Char × List Char) :=
  let f := l.takeWhile isWordChar
  if f = [] then none
  else
    match expectChar '=' ((l.drop f.length).dropWhile isJSWhitespace) with
    | none => none
    | some r3 =>
      match expectChar '\x7b' (r3.dropWhile isJSWhitespace) with
      | none => none
      | some r5 =>
        let v := r5.takeWhile (fun c => !decide (c = '\x7d'))
        match expectChar '\x7d' (r5.drop v.length) with
        | none => none
        | some r6 =>
          match expectChar ',' r6 with
          | some r8 => some (f, v, r8.dropWhile isJSWhitespace)
          | none => some (f, v, r6)

/-- `BibtexParser.parseEntry`'s field loop,
`entry.matchAll(/(\w+)\s*=\s*\{...\}(?:,\s*)?/gs)`: scan left to right for
the leftmost match, emit its captures, and resume after the matched text.
Each step consumes at least one character (`matchFieldAt_rest_lt`), so a
fuel of one unit per remaining character never runs out; the fuel only
makes the recursion structural. -/
def scanFieldsAux : Nat → List Char → List (List Char × List Char)
  | 0, _ => []
  | _ + 1, [] => []
  | fuel + 1, c :: cs =>
    match matchFieldAt (c :: cs) with
    | some (f, v, rest) => (f, v) :: scanFieldsAux fuel rest
    | none => scanFieldsAux fuel cs

/-- All the field matches of an entry, in order. -/
def scanFields (l : List Char) : List (List Char × List Char) :=
  scanFieldsAux l.length l

/-- `text.replace(/\s+/g, ' ')`: collapse each maximal whitespace run to a
single space.  The flag records whether the previous character belonged to
a whitespace run already replaced by its single space. -/
def collapseWSAux : Bool → List Char → List Char
  | _, [] => []
  | prevWS, c :: cs =>
    if isJSWhitespace c then
      if prevWS then collapseWSAux true cs else ' ' :: collapseWSAux true cs
    else c :: collapseWSAux false cs

/-- `text.replace(/\s+/g, ' ')` on a whole string. -/
def collapseWS (l : List Char) : List Char :=
  collapseWSAux false l

/-- `BibtexParser.cleanField`: normalise whitespace, then trim. -/
def cleanField (text : List Char) : List Char :=
  jsTrim (collapseWS text)

/-- `BibtexParser.parseEntry(entry)`: match type and key on the first line
(`entry.split('\n')[0]`), returning `null` (`none`) on failure; otherwise
start from `{type, key}` (type lowercased) and store every field match,
lowercasing the field name and cleaning the value. -/
def parseEntry (entry : List Char) : Option Record :=
  match typeKeyMatch (splitOnChar '\n' entry).headI with
  | none => none
  | some (ty, key) =>
    let pub : Record := setField (setField [] ("type".data) (ty.map Char.toLower)) ("key".data) key
    some ((scanFields entry).foldl
      (fun acc fv => setField acc (fv.1.map Char.toLower) (cleanField fv.2)) pub)

/-- `content.split('@').filter(entry => entry.trim())`: the candidate entry
chunks (a chunk whose trim is the empty string is falsy and dropped). -/
def bibChunks (content : List Char) : List (List Char) :=
  (splitOnChar '@' content).filter (fun e => !decide (jsTrim e = []))

/-- The `entries.forEach` accumulation loop of `BibtexParser.parseBibtex`:
push each successfully parsed entry, skip the `null`s. -/
def bibRecords (content : List Char) : List Record :=
  (bibChunks content).foldl
    (fun acc e => match parseEntry e with | some p => acc ++ [p] | none => acc) []

/-- `BibtexParser.parseBibtex(content)`: parse the chunks, then sort by
year, newest first. -/
def parseBibtex (content : List Char) : List Record :=
  sortByYearDesc (bibRecords content)

/-- The mutable state of a `BibtexParser` instance: the parsed collection
and the active filter set.  The JS `Set` is observed only through `has` and
`size`, so it is modelled by a `Finset`. -/
structure BibState where
  publications : List Record
  activeFilters : Finset (List Char)

/-- `this.activeFilters.has(pub.type)`; a record without a `type` field
reads `undefined`, which is never a member of the set. -/
def typeInFilters (fs : Finset (List Char)) (p : Record) : Bool :=
  match getField p ("type".data) with
  | some t => decide (t ∈ fs)
  | none => false

/-- `BibtexParser.getVisiblePublications()`: the whole collection when no
filter is active, otherwise the records whose type is in the filter set. -/
def getVisiblePublications (st : BibState) : List Record :=
  if st.activeFilters = ∅ then st.publications
  else st.publications.filter (typeInFilters st.activeFilters)

/-- `getVisiblePublications` as a state transformer: its body only reads
`this` (`filter` returns a fresh array), so the state component is returned
unchanged. -/
def getVisiblePublicationsS (st : BibState) : List Record × BibState :=
  (getVisiblePublications st, st)

/-- `BibtexParser.toggleFilter(type)`: delete the type if present, add it
otherwise.  (The subsequent re-render touches only the DOM.) -/
def toggleFilter (t : List Char) (st : BibState) : BibState :=
  { st with activeFilters :=
      if t ∈ st.activeFilters then st.activeFilters.erase t
      else insert t st.activeFilters }

/-! ## Supporting lemmas -/

theorem lengthDropWhileLe {α : Type} (p : α → Bool) (l : List α) :
    (l.dropWhile p).length ≤ l.length := by
  induction l with
  | nil => simp
  | cons c cs ih =>
    rw [List.dropWhile_cons]
    split
    · exact Nat.le_succ_of_le ih
    · exact Nat.le_refl _

theorem lengthTakeWhileLe {α : Type} (p : α → Bool) (l : List α) :
    (l.takeWhile p).length ≤ l.length := by
  induction l with
  | nil => simp
  | cons c cs ih =>
    rw [List.takeWhile_cons]
    split
    · simpa using ih
    · simp

theorem expectChar_length_lt {c : Char} {l r : List Char}
    (h : expectChar c l = some r) : r.length < l.length := by
  match l with
  | [] => simp [expectChar] at h
  | x :: xs =>
    simp only [expectChar] at h
    split at h
    · cases h; simp
    · cases h

theorem matchFieldAt_rest_lt {l f v rest : List Char}
    (h : matchFieldAt l = some (f, v, rest)) : rest.length < l.length := by
  simp only [matchFieldAt] at h
  split at h
  · cases h
  · rename_i hf
    split at h
    · cases h
    · rename_i r3 h3
      split at h
      · cases h
      · rename_i r5 h5
        split at h
        · cases h
        · rename_i r6 h6
          have l3 := expectChar_length_lt h3
          have l5 := expectChar_length_lt h5
          have l6 := expectChar_length_lt h6
          have d3 : (r3.dropWhile isJSWhitespace).length ≤ r3.length :=
            lengthDropWhileLe _ _
          have dl : ((l.drop (l.takeWhile isWordChar).length).dropWhile isJSWhitespace).length ≤
              (l.drop (l.takeWhile isWordChar).length).length :=
            lengthDropWhileLe _ _
          have dv : (r5.drop (r5.takeWhile (fun c => !decide (c = '\x7d'))).length).length ≤
              r5.length := by
            rw [List.length_drop]
            omega
          have hpos : 0 < (l.takeWhile isWordChar).length := by
            cases hw : l.takeWhile isWordChar with
            | nil => exact absurd hw hf
            | cons a as => simp [hw]
          have dd2 : (l.drop (l.takeWhile isWordChar).length).length < l.length := by
            have := lengthTakeWhileLe isWordChar l
            rw [List.length_drop]
            omega
          split at h
          · rename_i r8 h8
            have l8 := expectChar_length_lt h8
            have d8 : (r8.dropWhile isJSWhitespace).length ≤ r8.length :=
              lengthDropWhileLe _ _
            cases h
            omega
          · cases h
            omega

/-- The fuel in `scanFieldsAux` is irrelevant as long as it covers the
number of remaining characters, because every step consumes at least one
character; in particular `scanFields`'s choice of `l.length` is enough. -/
theorem scanFieldsAux_fuel (fuel fuel' : Nat) (l : List Char)
    (h : l.length ≤ fuel) (h' : l.length ≤ fuel') :
    scanFieldsAux fuel l = scanFieldsAux fuel' l := by
  induction fuel generalizing fuel' l with
  | zero =>
    have : l = [] := List.length_eq_zero.mp (Nat.le_zero.mp h)
    subst this
    cases fuel' <;> rfl
  | succ fuel ih =>
    cases l with
    | nil => cases fuel' <;> rfl
    | cons c cs =>
      cases fuel' with
      | zero => exact absurd h' (by simp)
      | succ fuel' =>
        simp only [scanFieldsAux]
        cases hm : matchFieldAt (c :: cs) with
        | some fvr =>
          obtain ⟨f, v, rest⟩ := fvr
          have hrest := matchFieldAt_rest_lt hm
          simp only [List.length_cons] at h h' hrest
          dsimp only
          rw [ih fuel' rest (by omega) (by omega)]
        | none =>
          simp only [List.length_cons] at h h'
          dsimp only
          exact ih fuel' cs (by omega) (by omega)

theorem mem_insertYearDesc {z x : Record} :
    ∀ {s : List Record}, z ∈ insertYearDesc x s ↔ z = x ∨ z ∈ s := by
  intro s
  induction s with
  | nil => simp [insertYearDesc]
  | cons y ys ih =>
    rw [insertYearDesc]
    split
    · simp only [List.mem_cons, ih]
      tauto
    · simp [List.mem_cons]

theorem pairwise_insertYearDesc {x : Record} :
    ∀ {s : List Record}, s.Pairwise (fun a b => recYear b ≤ recYear a) →
      (insertYearDesc x s).Pairwise (fun a b => recYear b ≤ recYear a) := by
  intro s
  induction s with
  | nil => intro _; simp [insertYearDesc]
  | cons y ys ih =>
    intro h
    obtain ⟨hy, hys⟩ := List.pairwise_cons.mp h
    rw [insertYearDesc]
    split
    · rename_i hlt
      refine List.pairwise_cons.mpr ⟨?_, ih hys⟩
      intro z hz
      rcases mem_insertYearDesc.mp hz with hzx | hzs
      · subst hzx; exact le_of_lt hlt
      · exact hy z hzs
    · rename_i hge
      refine List.pairwise_cons.mpr ⟨?_, h⟩
      intro z hz
      rcases List.mem_cons.mp hz with hzy | hzs
      · subst hzy; exact le_of_not_lt hge
      · exact le_trans (hy z hzs) (le_of_not_lt hge)

theorem pairwise_sortByYearDesc (l : List Record) :
    (sortByYearDesc l).Pairwise (fun a b => recYear b ≤ recYear a) := by
  induction l with
  | nil => simp [sortByYearDesc]
  | cons x xs ih =>
    rw [sortByYearDesc, List.foldr_cons]
    exact pairwise_insertYearDesc ih

theorem filter_insertYearDesc (n : Int) (x : Record) :
    ∀ (s : List Record),
      (insertYearDesc x s).filter (fun r => decide (recYear r = n))
        = if recYear x = n then x :: s.filter (fun r => decide (recYear r = n))
          else s.filter (fun r => decide (recYear r = n)) := by
  intro s
  induction s with
  | nil =>
    by_cases hx : recYear x = n <;> simp [insertYearDesc, List.filter, hx]
  | cons y ys ih =>
    rw [insertYearDesc]
    by_cases hlt : recYear x < recYear y
    · rw [if_pos hlt]
      by_cases hx : recYear x = n
      · have hy : ¬(recYear y = n) := by omega
        simp [List.filter_cons, hy, ih, hx]
      · simp [List.filter_cons, ih, hx]
    · rw [if_neg hlt]
      by_cases hx : recYear x = n <;> simp [List.filter_cons, hx]

theorem filter_sortByYearDesc (n : Int) :
    ∀ (l : List Record),
      (sortByYearDesc l).filter (fun r => decide (recYear r = n))
        = l.filter (fun r => decide (recYear r = n)) := by
  intro l
  induction l with
  | nil => rfl
  | cons x xs ih =>
    have hstep : sortByYearDesc (x :: xs) = insertYearDesc x (sortByYearDesc xs) := rfl
    rw [hstep, filter_insertYearDesc]
    by_cases hx : recYear x = n <;> simp [hx, List.filter_cons, ih]

theorem csvLoopEq (hs : List (List Char)) :
    ∀ (ls : List (List Char)) (acc : List Record),
      ls.foldl (fun a l =>
        let vs := parseCSVLine l
        if hs.length ≤ vs.length then a ++ [buildActivity [] hs vs] else a) acc
      = acc ++ (ls.filter fun l => decide (hs.length ≤ (parseCSVLine l).length)).map
          (fun l => buildActivity [] hs (parseCSVLine l)) := by
  intro ls
  induction ls with
  | nil => intro acc; simp
  | cons l ls ih =>
    intro acc
    by_cases h : hs.length ≤ (parseCSVLine l).length
    · simp [List.foldl_cons, List.filter_cons, h, ih]
    · simp [List.foldl_cons, List.filter_cons, h, ih]

theorem bibLoopEq :
    ∀ (es : List (List Char)) (acc : List Record),
      es.foldl (fun a e => match parseEntry e with | some p => a ++ [p] | none => a) acc
        = acc ++ es.filterMap parseEntry := by
  intro es
  induction es with
  | nil => intro acc; simp
  | cons e es ih =>
    intro acc
    cases he : parseEntry e with
    | some p => simp [List.foldl_cons, List.filterMap_cons, he, ih]
    | none => simp [List.foldl_cons, List.filterMap_cons, he, ih]

theorem takeWhileAppendAll {p : Char → Bool} (b : Char) (hb : p b = false)
    (rest : List Char) :
    ∀ (w : List Char), (∀ c ∈ w, p c) → (w ++ b :: rest).takeWhile p = w := by
  intro w
  induction w with
  | nil => intro _; simp [List.takeWhile_cons, hb]
  | cons a as ih =>
    intro hwc
    simp [List.takeWhile_cons, hwc a (by simp),
      ih (fun c hc => hwc c (by simp [hc]))]

theorem csvScan_no_quote (rest : List Char) :
    ∀ (vs : List (List Char)) (cur : List Char) (q : Bool),
      (∀ v ∈ vs, '"' ∉ v) → '"' ∉ cur → ∀ v ∈ csvScan vs cur q rest, '"' ∉ v := by
  induction rest with
  | nil =>
    intro vs cur q hvs hcur v hv
    rw [csvScan] at hv
    rcases List.mem_append.mp hv with h | h
    · exact hvs v h
    · rw [List.mem_singleton.mp h]; exact hcur
  | cons c cs ih =>
    intro vs cur q hvs hcur v hv
    rw [csvScan] at hv
    by_cases hq : c = '"'
    · rw [if_pos hq] at hv
      exact ih vs cur (!q) hvs hcur v hv
    · rw [if_neg hq] at hv
      by_cases hcm : c = ',' ∧ q = false
      · rw [if_pos hcm] at hv
        refine ih (vs ++ [cur]) [] q ?_ (by simp) v hv
        intro u hu
        rcases List.mem_append.mp hu with h | h
        · exact hvs u h
        · rw [List.mem_singleton.mp h]; exact hcur
      · rw [if_neg hcm] at hv
        refine ih vs (cur ++ [c]) q hvs ?_ v hv
        intro hmem
        rcases List.mem_append.mp hmem with h | h
        · exact hcur h
        · exact hq (List.mem_singleton.mp h).symm

theorem csvScan_unbalanced (rest : List Char) :
    ∀ (vs : List (List Char)) (cur : List Char),
      '"' ∉ rest → csvScan vs cur true rest = vs ++ [cur ++ rest] := by
  induction rest with
  | nil => intro vs cur _; simp [csvScan]
  | cons c cs ih =>
    intro vs cur h
    have hc : ¬c = '"' := fun e => h (e ▸ List.mem_cons_self c cs)
    have hcs : '"' ∉ cs := fun m => h (List.mem_cons_of_mem c m)
    rw [csvScan, if_neg hc, if_neg (by simp), ih vs (cur ++ [c]) hcs]
    simp

/-! ## The claims -/

/-- Claim C1 (amended): on a first line of the form `<word-chars>{<rest>`,
the type/key regex captures the identifier as `type` and **all characters
of `rest` up to the first comma or the end of the line** as `key` — a
closing brace is not a terminator and lands in the key when no comma
precedes it — and `parseEntry` stores the lowercased type and that key
before reading the fields. -/
theorem typeKey_amended_C1 (w rest entry : List Char)
    (hw : w ≠ []) (hwc : ∀ c ∈ w, isWordChar c)
    (hk : rest.takeWhile (fun c => !decide (c = ',')) ≠ [])
    (hfl : (splitOnChar '\n' entry).headI = w ++ '\x7b' :: rest) :
    typeKeyMatch (w ++ '\x7b' :: rest)
      = some (w, rest.takeWhile (fun c => !decide (c = ',')))
    ∧ parseEntry entry
      = some ((scanFields entry).foldl
          (fun acc fv => setField acc (fv.1.map Char.toLower) (cleanField fv.2))
          (setField (setField [] ("type".data) (w.map Char.toLower)) ("key".data)
            (rest.takeWhile (fun c => !decide (c = ','))))) := by
  have htw : (w ++ '\x7b' :: rest).takeWhile isWordChar = w :=
    takeWhileAppendAll '\x7b' (by decide) rest w hwc
  have h1 : typeKeyMatch (w ++ '\x7b' :: rest)
      = some (w, rest.takeWhile (fun c => !decide (c = ','))) := by
    have he : expectChar '\x7b' ('\x7b' :: rest) = some rest := by simp [expectChar]
    simp only [typeKeyMatch, htw]
    rw [if_neg hw, List.drop_left, he]
    dsimp only
    rw [if_neg hk]
  refine ⟨h1, ?_⟩
  rw [parseEntry, hfl, h1]

/-- Claim C1, counterexample to the original wording: for the entry
`@misc{foo2024}` (no comma) the stored key is `foo2024}` — it does include
the closing brace, contradicting the claimed `foo2024`. -/
theorem typeKey_counterexample_C1 :
    parseEntry ("misc\x7bfoo2024\x7d").data
      = some [("type".data, "misc".data), ("key".data, "foo2024\x7d".data)]
    ∧ ("foo2024\x7d".data : List Char) ≠ "foo2024".data :=
  ⟨by rfl, by decide⟩

theorem typeKey_amended_C1_witness :
    (("misc".data : List Char) ≠ [])
    ∧ typeKeyMatch ("misc".data ++ '\x7b' :: "foo2024\x7d".data)
        = some ("misc".data, "foo2024\x7d".data) := by
  refine ⟨by decide, ?_⟩
  have h := (typeKey_amended_C1 ("misc".data) ("foo2024\x7d".data)
    (("misc\x7bfoo2024\x7d").data) (by decide) (by decide) (by decide) (by rfl)).1
  rw [h]
  rfl

/-- Claim C2: both parsers return their records sorted descending by
`parseInt(year) || 0` (missing or non-numeric year counting as 0), and the
sort is stable: for every year value, the records with that year appear in
the same relative order as in the respective pre-sort record list. -/
theorem sort_desc_stable_C2 (content : List Char) :
    ((parseCSV content).Pairwise fun a b => recYear b ≤ recYear a)
    ∧ ((parseBibtex content).Pairwise fun a b => recYear b ≤ recYear a)
    ∧ (∀ n : Int,
        (parseCSV content).filter (fun r => decide (recYear r = n))
          = (csvRecords content).filter (fun r => decide (recYear r = n))
        ∧ (parseBibtex content).filter (fun r => decide (recYear r = n))
          = (bibRecords content).filter (fun r => decide (recYear r = n))) :=
  ⟨pairwise_sortByYearDesc _, pairwise_sortByYearDesc _,
   fun n => ⟨filter_sortByYearDesc n _, filter_sortByYearDesc n _⟩⟩

/-- Claim C3: the quote-aware scanner strips the double quotes and keeps
the comma inside the quoted span: parsing `year,name\n2020,"A, B"\n` yields
one record whose `name` field is exactly `A, B`. -/
theorem csv_quoted_comma_C3 :
    parseCSV ("year,name\n2020,\"A, B\"\n").data
      = [[("year".data, "2020".data), ("name".data, "A, B".data)]]
    ∧ getField [("year".data, "2020".data), ("name".data, "A, B".data)] ("name".data)
      = some ("A, B".data) :=
  ⟨by rfl, by rfl⟩

/-- Claim C4: a data line is kept exactly when it yields at least as many
fields as there are headers — short lines contribute nothing — and a kept
record is built by pairing each header with the trimmed value at its index,
ignoring extra fields; the parser's output is that record list sorted. -/
theorem csv_keep_iff_C4 (content : List Char) :
    csvRecords content
      = ((csvDataLines content).filter
          fun l => decide ((csvHeaders content).length ≤ (parseCSVLine l).length)).map
        (fun l => buildActivity [] (csvHeaders content) (parseCSVLine l))
    ∧ parseCSV content = sortByYearDesc (csvRecords content) := by
  refine ⟨?_, rfl⟩
  have h := csvLoopEq (csvHeaders content) (csvDataLines content) []
  simpa [csvRecords] using h

/-- Claim C5: evaluation of the field regex at the spec's nested-brace
example.  The greedy `[^}]*` in the value pattern also consumes `{`, so the
capture stops at the **first** closing brace: `title = {A {B} C}` stores
`A {B`, not the documented `A {B} C` — the nested-brace alternative of the
regex can never participate in a match. -/
theorem bib_nested_brace_eval_C5 :
    parseEntry ("misc\x7bk,\ntitle = \x7bA \x7bB\x7d C\x7d\n\x7d").data
      = some [("type".data, "misc".data), ("key".data, "k".data),
          ("title".data, "A \x7bB".data)]
    ∧ getField [("type".data, "misc".data), ("key".data, "k".data),
        ("title".data, "A \x7bB".data)] ("title".data) = some ("A \x7bB".data)
    ∧ ("A \x7bB".data : List Char) ≠ "A \x7bB\x7d C".data :=
  ⟨by rfl, by rfl, by decide⟩

/-- Claim C6: with no active filter the visible view is the whole parsed
collection in its order; with a non-empty filter set it is exactly the
records whose `type` belongs to the set, in collection order. -/
theorem visible_records_C6 (pubs : List Record) (fs : Finset (List Char)) :
    (fs = ∅ → getVisiblePublications ⟨pubs, fs⟩ = pubs)
    ∧ (fs ≠ ∅ → getVisiblePublications ⟨pubs, fs⟩ = pubs.filter (typeInFilters fs)) := by
  constructor
  · intro h; simp [getVisiblePublications, h]
  · intro h; simp [getVisiblePublications, h]

theorem visible_records_C6_witness :
    getVisiblePublications
        ⟨[[("type".data, "misc".data)], [("type".data, "article".data)]], ∅⟩
      = [[("type".data, "misc".data)], [("type".data, "article".data)]]
    ∧ getVisiblePublications
        ⟨[[("type".data, "misc".data)], [("type".data, "article".data)]],
          {"misc".data}⟩
      = [[("type".data, "misc".data)]] := by
  constructor
  · exact (visible_records_C6 _ _).1 rfl
  · have h := (visible_records_C6
      [[("type".data, "misc".data)], [("type".data, "article".data)]]
      {"misc".data}).2 (Finset.singleton_ne_empty _)
    rw [h]
    rfl

/-- Claim C7: toggling the same type twice restores the filter-set state:
`toggleFilter` removes a present type and adds an absent one, so its double
application is the identity on the parser state. -/
theorem toggle_involution_C7 (t : List Char) (st : BibState) :
    toggleFilter t (toggleFilter t st) = st := by
  cases st with
  | mk pubs fs =>
    simp only [toggleFilter]
    by_cases h : t ∈ fs
    · simp [h, Finset.insert_erase h]
    · simp [h, Finset.erase_insert h]

/-- Claim C8: a chunk whose first line fails the type/key pattern is
dropped (`parseEntry` is `none` exactly then) while the other chunks still
parse — totality of the embedding reflects that no failure escapes — and
the whole parse is the sorted `filterMap` over the chunks; a concrete
stray-`@`-plus-garbage chunk is skipped and the following entry survives,
its fields intact. -/
theorem malformed_skip_C8 :
    (∀ content : List Char,
      parseBibtex content = sortByYearDesc ((bibChunks content).filterMap parseEntry))
    ∧ (∀ entry : List Char,
        (parseEntry entry).isSome = (typeKeyMatch (splitOnChar '\n' entry).headI).isSome)
    ∧ parseBibtex ("@!!!garbage\n@misc\x7bk,\ntitle = \x7bT\x7d,\n\x7d").data
        = [[("type".data, "misc".data), ("key".data, "k".data),
            ("title".data, "T".data)]] := by
  refine ⟨?_, ?_, by rfl⟩
  · intro content
    rw [parseBibtex, bibRecords, bibLoopEq]
    simp
  · intro entry
    rw [parseEntry]
    cases typeKeyMatch (splitOnChar '\n' entry).headI with
    | none => rfl
    | some p => cases p with | mk ty key => rfl

/-- Claim C9: no field produced by the quote-aware line scanner contains a
double quote — every quote only toggles the flag — and with the flag stuck
on (unbalanced quotes) the quote-free remainder of the line, commas
included, accumulates into the one final field. -/
theorem scanner_quote_free_C9 :
    (∀ (line : List Char), ∀ v ∈ parseCSVLine line, '"' ∉ v)
    ∧ (∀ (vs : List (List Char)) (cur rest : List Char),
        '"' ∉ rest → csvScan vs cur true rest = vs ++ [cur ++ rest]) := by
  constructor
  · intro line v hv
    exact csvScan_no_quote line [] [] false (by simp) (by simp) v hv
  · intro vs cur rest h
    exact csvScan_unbalanced rest vs cur h

theorem scanner_quote_free_C9_witness :
    ('"' ∉ (",x".data : List Char))
    ∧ csvScan [] ("y".data) true (",x".data) = [] ++ ["y".data ++ ",x".data]
    ∧ '"' ∉ ("2020".data : List Char) :=
  ⟨by decide,
   scanner_quote_free_C9.2 [] ("y".data) (",x".data) (by decide),
   scanner_quote_free_C9.1 (("2020,\"A, B\"").data) ("2020".data) (by decide)⟩

/-- Claim C10: `toggleFilter` leaves the parsed collection — records,
fields and order — untouched, and the visible-records view leaves the whole
state untouched. -/
theorem frame_toggle_C10 (st : BibState) (t : List Char) :
    (toggleFilter t st).publications = st.publications
    ∧ (getVisiblePublicationsS st).2 = st :=
  ⟨rfl, rfl⟩

end Site
